import Mathlib

/-!
# Verification of the KindleMyPaper markdown core

Shallow embedding of the markdown cleaning / treatment logic of
`app.py` (functions `clean_markdown`, `basic_markdown_treatment`,
`apply_treatment`) and of the inline response sanitizer of
`test_separate/test_gemini_simple.py` (lines 205-210).

A Python string is modelled as its sequence of code points, `List Nat`.
Character-class predicates (`isupper`, `\w`, `str.title`, whitespace)
are modelled over the ASCII range, which covers every constant the
program manipulates and every input used in the theorems below.
Fallible code is modelled with `Except Unit`: the single failure mode
of the cleaning path is the `TypeError` raised on line 239 of `app.py`
(`str.endswith` applied to a `bool`).
-/

/-- A Python string: the list of its code points. -/
abbrev PyStr := List Nat

/-- Code points of a Lean string literal, used to transcribe the
constants appearing in the Python source. -/
def S (s : String) : PyStr := s.toList.map Char.toNat

/-- Python `str.strip()` whitespace class (ASCII part):
space, tab, newline, carriage return, vertical tab, form feed. -/
def pySpace (c : Nat) : Bool :=
  c = 32 || c = 9 || c = 10 || c = 13 || c = 11 || c = 12

/-- Python `str.strip()`: drop leading and trailing whitespace. -/
def pyStrip (l : PyStr) : PyStr :=
  ((l.dropWhile pySpace).reverse.dropWhile pySpace).reverse

/-- Python `s.split('\n')`. -/
def pySplitLines : PyStr → List PyStr
  | [] => [[]]
  | c :: rest =>
    if c = 10 then [] :: pySplitLines rest
    else
      match pySplitLines rest with
      | [] => [[c]]
      | l :: ls => (c :: l) :: ls

/-- Python `'\n'.join(lines)`. -/
def pyJoin : List PyStr → PyStr
  | [] => []
  | [l] => l
  | l :: l2 :: ls => l ++ 10 :: pyJoin (l2 :: ls)

/-- One step of Python `str.replace` with fuel (the fuel is the length
of the string, which is always enough since every step consumes at
least one code point; the patterns used by the program are nonempty,
and for an empty pattern the function is the identity). -/
def pyReplaceGo (pat rep : PyStr) : Nat → PyStr → PyStr
  | _, [] => []
  | 0, l => l
  | fuel + 1, c :: rest =>
    if pat ≠ [] ∧ pat.isPrefixOf (c :: rest) then
      rep ++ pyReplaceGo pat rep fuel ((c :: rest).drop pat.length)
    else
      c :: pyReplaceGo pat rep fuel rest

/-- Python `s.replace(pat, rep)` for a nonempty `pat`. -/
def pyReplace (pat rep l : PyStr) : PyStr :=
  pyReplaceGo pat rep l.length l

/-- ASCII letter. -/
def isAlphaCode (c : Nat) : Bool :=
  (65 ≤ c && c ≤ 90) || (97 ≤ c && c ≤ 122)

/-- ASCII uppercase letter. -/
def isUpperCode (c : Nat) : Bool := 65 ≤ c && c ≤ 90

/-- ASCII lowercase to uppercase. -/
def upCode (c : Nat) : Nat := if 97 ≤ c ∧ c ≤ 122 then c - 32 else c

/-- ASCII uppercase to lowercase. -/
def lowCode (c : Nat) : Nat := if 65 ≤ c ∧ c ≤ 90 then c + 32 else c

/-- Python `str.title()` (ASCII): uppercase a letter that follows a
non-letter, lowercase a letter that follows a letter. -/
def pyTitleGo : Bool → PyStr → PyStr
  | _, [] => []
  | prevAlpha, c :: rest =>
    (if isAlphaCode c then (if prevAlpha then lowCode c else upCode c) else c)
      :: pyTitleGo (isAlphaCode c) rest

/-- Python `str.title()`. -/
def pyTitle (l : PyStr) : PyStr := pyTitleGo false l

/-- Python `str.isupper()` (ASCII): at least one cased character and
no lowercase cased character. -/
def pyIsUpper (l : PyStr) : Bool :=
  l.any isAlphaCode && l.all (fun c => !isAlphaCode c || isUpperCode c)

/-- Python `pat in s` (substring search). -/
def subSearch (pat : PyStr) : PyStr → Bool
  | [] => pat.isEmpty
  | c :: rest => pat.isPrefixOf (c :: rest) || subSearch pat rest

/-- Decimal digits of a natural number, with fuel. -/
def natDigitsGo : Nat → Nat → PyStr
  | 0, _ => []
  | fuel + 1, n =>
    if n < 10 then [48 + n] else natDigitsGo fuel (n / 10) ++ [48 + n % 10]

/-- Python `str(n)` for a natural number `n`. -/
def natDigits (n : Nat) : PyStr := natDigitsGo (n + 1) n

/-! ## `clean_markdown` (app.py lines 228-274) -/

/-- The replacement emitted for a broken image placeholder when an
image URL is available: `f"![Figure {image_index + 1}]({image_url})"`
(app.py line 247). -/
def figureLine (idx : Nat) (url : PyStr) : PyStr :=
  S "![Figure " ++ natDigits (idx + 1) ++ S "](" ++ url ++ S ")"

/-- The replacement emitted when the URL list is exhausted
(app.py line 250). -/
def imageNotice : PyStr := S "*[Figure/Image available in original PDF]*"

/-- Left conjunct of the page-marker test on app.py line 239:
`line.strip().startswith('## Page ')`.  When it holds, Python
evaluates the right conjunct
`line.strip().endswith(line.strip().split()[-1].isdigit())`, i.e.
calls `str.endswith` with a `bool` argument, which raises
`TypeError`; the embedding of the cleaning loop therefore returns
`Except.error ()` as soon as this predicate holds for a line. -/
def pageMarkerHit (line : PyStr) : Bool :=
  (S "## Page ").isPrefixOf (pyStrip line)

/-- Broken image placeholder test (app.py line 243):
`line.strip().startswith('![](_page_') or '[Image #' in line`. -/
def isImageLine (line : PyStr) : Bool :=
  (S "![](_page_").isPrefixOf (pyStrip line) || subSearch (S "[Image #") line

/-- `filename.replace('.pdf', '')` (app.py lines 257, 271). -/
def fnameStem (filename : PyStr) : PyStr := pyReplace (S ".pdf") [] filename

/-- The fallback title
`filename.replace('.pdf', '').replace('_', ' ').replace('-', ' ').title()`
(app.py line 271). -/
def fnameTitle (filename : PyStr) : PyStr :=
  pyTitle (pyReplace (S "-") (S " ") (pyReplace (S "_") (S " ") (fnameStem filename)))

/-- Prepend a line to the output of a cleaning-loop result. -/
def consOut (x : PyStr) (r : Except Unit (List PyStr × Bool × Nat)) :
    Except Unit (List PyStr × Bool × Nat) :=
  r.map fun p => (x :: p.1, p.2)

/-- The per-line loop of `clean_markdown` (app.py lines 237-260).
State: `ts` is `title_set`, `idx` is `image_index`; the result carries
the accumulated `cleaned_lines` together with the final state.  A page
marker raises `TypeError` (see `pageMarkerHit`), which aborts the
whole call, hence the `Except`. -/
def cleanLoop (filename : PyStr) (urls : List PyStr) :
    List PyStr → Bool → Nat → Except Unit (List PyStr × Bool × Nat)
  | [], ts, idx => .ok ([], ts, idx)
  | line :: rest, ts, idx =>
    if pageMarkerHit line then .error ()
    else if isImageLine line then
      if idx < urls.length then
        consOut (figureLine idx (urls.getD idx [])) (cleanLoop filename urls rest ts (idx + 1))
      else
        consOut imageNotice (cleanLoop filename urls rest ts idx)
    else if (S "# ").isPrefixOf line ∧ ts = false then
      consOut line (cleanLoop filename urls rest true idx)
    else if (S "#").isPrefixOf line ∧ pyStrip line ≠ S "# " ++ fnameStem filename then
      consOut line (cleanLoop filename urls rest ts idx)
    else if ((S "# ").isPrefixOf line : Bool) = false then
      consOut line (cleanLoop filename urls rest ts idx)
    else
      cleanLoop filename urls rest ts idx

/-- Locate the first line starting with `'## '` and remove it,
returning it together with the remaining lines in order.  This is the
effect of `cleaned_lines.insert(0, ...)` followed by
`cleaned_lines.pop(i + 1)` in app.py lines 264-268. -/
def eraseFirstHH : List PyStr → Option (PyStr × List PyStr)
  | [] => none
  | l :: rest =>
    if (S "## ").isPrefixOf l then some (l, rest)
    else
      match eraseFirstHH rest with
      | none => none
      | some p => some (p.1, l :: p.2)

/-- Title post-pass of `clean_markdown` (app.py lines 262-272), run
when no top-level heading was kept by the loop: promote the first
second-level heading, else synthesize a title from the filename (note
the trailing `'\n'` inside the inserted element, line 272). -/
def promoteTitle (filename : PyStr) (cleaned : List PyStr) : List PyStr :=
  match eraseFirstHH cleaned with
  | some p => (S "# " ++ p.1.drop 3) :: p.2
  | none => (S "# " ++ fnameTitle filename ++ [10]) :: cleaned

/-- `clean_markdown(content, filename, temp_image_urls)`
(app.py lines 228-274). -/
def clean_markdown (content filename : PyStr) (urls : List PyStr) : Except Unit PyStr :=
  match cleanLoop filename urls (pySplitLines content) false 0 with
  | .error e => .error e
  | .ok (cleaned, ts, _) =>
    .ok (pyJoin (if ts then cleaned else promoteTitle filename cleaned))

/-! ## `basic_markdown_treatment` (app.py lines 333-360) -/

/-- The body of the per-line loop of `basic_markdown_treatment`
(app.py lines 338-358), returning the lines appended for one input
line.  `line.replace('fi', 'fi')` and `line.replace('fl', 'fl')` are
transcribed as written in the source (both pattern and replacement
are the plain ASCII two-letter sequences). -/
def treatLine (line : PyStr) : List PyStr :=
  let l1 := pyStrip line
  let l2 := pyReplace (S "fi") (S "fi") l1
  let l3 := pyReplace (S "fl") (S "fl") l2
  let l4 := if l3.length < 100 ∧ pyIsUpper l3 ∧ 3 < l3.length
            then S "## " ++ pyTitle l3 else l3
  if l4 ≠ [] ∧ ((S "#").isPrefixOf l4 : Bool) = false ∧
      ((S "-").isPrefixOf l4 : Bool) = false ∧ ((S "*").isPrefixOf l4 : Bool) = false then
    if 50 < l4.length then [l4, []] else [l4]
  else [l4]

/-- `basic_markdown_treatment(markdown, prompt)` (app.py lines
333-360).  The `prompt` argument is unused by the source body. -/
def basic_markdown_treatment (markdown prompt : PyStr) : PyStr :=
  pyJoin ((pySplitLines markdown).map treatLine).flatten

/-! ## `apply_treatment` (app.py lines 307-331)

The remote AI call is abstracted by its outcome: `none` models
`AI_AVAILABLE and os.getenv("OPENAI_API_KEY")` being false,
`some (.error ())` models the `client.chat.completions.create` call
raising any exception, and `some (.ok t)` models a successful call
whose completion text is `t`. -/

/-- `apply_treatment(request)` for `request = (markdown, prompt)`,
given the outcome `ai` of the remote call; returns the
`treated_markdown` field of the response. -/
def apply_treatment (ai : Option (Except Unit PyStr)) (markdown prompt : PyStr) : PyStr :=
  match ai with
  | some (Except.ok completion) => completion
  | some (Except.error _) => basic_markdown_treatment markdown prompt
  | none => basic_markdown_treatment markdown prompt

/-! ## Response sanitizer (test_gemini_simple.py lines 205-210)

The sanitizer is `raw_result.strip()` followed by the three
`re.sub` calls (with `re.MULTILINE`) removing code-fence artifacts.
The three substitutions are embedded as
explicit scans over the code-point list.  `^` matches at the start of
the string and directly after any `'\n'`; `$` matches at the end of
the string and directly before any `'\n'`.  Each scan carries fuel
equal to the string length, which is sufficient because every step
consumes at least one code point. -/

/-- Python `\w` (ASCII): letter, digit or underscore. -/
def isWordCode (c : Nat) : Bool :=
  isAlphaCode c || (48 ≤ c && c ≤ 57) || c = 95

/-- Length of a match of `` ```\w*\n `` at the current position, if
any.  Since `\w` never matches `'\n'`, the greedy `\w*` has a unique
viable extent. -/
def fenceOpenLen (l : PyStr) : Option Nat :=
  if (S "```").isPrefixOf l then
    let w := (l.drop 3).takeWhile isWordCode
    if (l.drop (3 + w.length)).head? = some 10 then some (3 + w.length + 1) else none
  else none

/-- `re.sub(r'^```\w*\n', '', s, flags=re.MULTILINE)`: scan with a
line-start flag; a match ends right after a `'\n'`, so scanning
resumes at a line start. -/
def sub1Go : Nat → Bool → PyStr → PyStr
  | 0, _, l => l
  | fuel + 1, atStart, l =>
    match l with
    | [] => []
    | c :: rest =>
      match fenceOpenLen (c :: rest) with
      | some k =>
        if atStart then sub1Go fuel true ((c :: rest).drop k)
        else c :: sub1Go fuel (c = 10) rest
      | none => c :: sub1Go fuel (c = 10) rest

/-- First substitution of the sanitizer. -/
def sub1 (l : PyStr) : PyStr := sub1Go l.length true l

/-- Match of `\n```$` at the current position. -/
def closeFenceHit (l : PyStr) : Bool :=
  (S "\n```").isPrefixOf l && ((l.drop 4).isEmpty || (l.drop 4).head? = some 10)

/-- `re.sub(r'\n```$', '', s, flags=re.MULTILINE)`. -/
def sub2Go : Nat → PyStr → PyStr
  | 0, l => l
  | fuel + 1, l =>
    match l with
    | [] => []
    | c :: rest =>
      if closeFenceHit (c :: rest) then sub2Go fuel ((c :: rest).drop 4)
      else c :: sub2Go fuel rest

/-- Second substitution of the sanitizer. -/
def sub2 (l : PyStr) : PyStr := sub2Go l.length l

/-- Match of `^```$` at the current position (the `^` side is handled
by the caller's line-start flag). -/
def loneFenceHit (l : PyStr) : Bool :=
  (S "```").isPrefixOf l && ((l.drop 3).isEmpty || (l.drop 3).head? = some 10)

/-- `re.sub(r'^```$', '', s, flags=re.MULTILINE)`: after a match the
scan stands right before a `'\n'` (or the end), and that position is
not a line start since the preceding original character is a
backtick. -/
def sub3Go : Nat → Bool → PyStr → PyStr
  | 0, _, l => l
  | fuel + 1, atStart, l =>
    match l with
    | [] => []
    | c :: rest =>
      if atStart && loneFenceHit (c :: rest) then sub3Go fuel false ((c :: rest).drop 3)
      else c :: sub3Go fuel (c = 10) rest

/-- Third substitution of the sanitizer. -/
def sub3 (l : PyStr) : PyStr := sub3Go l.length true l

/-- The response sanitizer of test_gemini_simple.py lines 205-210:
strip, then the three fence-removal substitutions in order. -/
def sanitize (raw : PyStr) : PyStr := sub3 (sub2 (sub1 (pyStrip raw)))

/-! ## Auxiliary specification functions used by the theorems -/

/-- Characterization of the cleaning loop on line lists that contain
no page marker and no `'# '`-prefixed line: broken image placeholders
are replaced, consuming URLs in order, and every other line is kept
unchanged.  `cleanLoop` is proved to agree with it under those
hypotheses. -/
def cleanMap (urls : List PyStr) : Nat → List PyStr → List PyStr
  | _, [] => []
  | idx, l :: rest =>
    if isImageLine l then
      if idx < urls.length then
        figureLine idx (urls.getD idx []) :: cleanMap urls (idx + 1) rest
      else imageNotice :: cleanMap urls idx rest
    else l :: cleanMap urls idx rest

/-- Some line-start position of the string matches `` ```\w*\n ``. -/
def hasOpenFence : Bool → PyStr → Bool
  | _, [] => false
  | atStart, c :: rest =>
    (atStart && (fenceOpenLen (c :: rest)).isSome) || hasOpenFence (c = 10) rest

/-- Some position of the string matches `` \n```$ ``. -/
def hasCloseFence : PyStr → Bool
  | [] => false
  | c :: rest => closeFenceHit (c :: rest) || hasCloseFence rest

/-- Some line-start position of the string matches `` ^```$ ``. -/
def hasLoneFence : Bool → PyStr → Bool
  | _, [] => false
  | atStart, c :: rest => (atStart && loneFenceHit (c :: rest)) || hasLoneFence (c = 10) rest

example : S "ab" = [97, 98] := by decide
example : pyStrip (S "  ab ") = S "ab" := by decide
example : pySplitLines (S "a\nb") = [S "a", S "b"] := by decide
example : pyJoin [S "a", S "b"] = S "a\nb" := by decide
example : pyReplace (S ".pdf") [] (S "x.pdf") = S "x" := by decide
example : pyTitle (S "my_file name") = S "My_File Name" := by decide
example : pyIsUpper (S "AB3") = true := by decide
example : pyIsUpper (S "aB") = false := by decide
example : subSearch (S "[Image #") (S "x [Image #1]") = true := by decide
example : natDigits 12 = S "12" := by decide
example : clean_markdown (S "## Page 7") (S "paper.pdf") [] = .error () := rfl
example : clean_markdown (S "# A\nBody") (S "a.pdf") [] = .ok (S "# A\nBody") := rfl
example : clean_markdown (S "hello") (S "my_paper.pdf") [] =
    .ok (S "# My Paper\n\nhello") := rfl
example : clean_markdown (S "intro\n## Results Overview\nmore") (S "a.pdf") [] =
    .ok (S "# Results Overview\nintro\nmore") := rfl
example : clean_markdown (S "![](_page_1.png)\nx [Image #2] y\n[Image #3]") (S "a.pdf")
      [S "/u1", S "/u2"] =
    .ok (pyJoin [S "# A\n", S "![Figure 1](/u1)", S "![Figure 2](/u2)", imageNotice]) := rfl
example : basic_markdown_treatment (S "  a\nRESULTS") (S "p") = S "a\n## Results" := by decide
example : basic_markdown_treatment (S "          a") (S "p") = S "a" := by decide
example : sanitize (S "```markdown\n# T\nBody\n```") = S "# T\nBody" := by decide
example : sanitize (S "```\n x") = S " x" := by decide
example : sanitize (S " x") = S "x" := by decide

/-! ## General lemmas about the string model -/

theorem eq_append_drop_of_isPrefixOf {p l : PyStr} (h : p.isPrefixOf l = true) :
    l = p ++ l.drop p.length := by
  rw [List.isPrefixOf_iff_prefix] at h
  obtain ⟨t, rfl⟩ := h
  simp

theorem length_le_of_isPrefixOf {p l : PyStr} (h : p.isPrefixOf l = true) :
    p.length ≤ l.length := by
  rw [List.isPrefixOf_iff_prefix] at h
  exact h.length_le

theorem pyReplaceGo_self (pat : PyStr) :
    ∀ fuel l, l.length ≤ fuel → pyReplaceGo pat pat fuel l = l := by
  intro fuel
  induction fuel with
  | zero =>
    intro l h
    cases l with
    | nil => rfl
    | cons c rest => simp at h
  | succ n ih =>
    intro l h
    cases l with
    | nil => rfl
    | cons c rest =>
      simp only [pyReplaceGo]
      split
      · next hc =>
        have hl := eq_append_drop_of_isPrefixOf hc.2
        have hp : 1 ≤ pat.length := by
          cases pat with
          | nil => exact absurd rfl hc.1
          | cons a as => simp
        rw [ih ((c :: rest).drop pat.length)]
        · exact hl.symm
        · simp only [List.length_drop, List.length_cons]
          simp only [List.length_cons] at h
          omega
      · have : rest.length ≤ n := by
          simp only [List.length_cons] at h
          omega
        rw [ih rest this]

theorem pyReplace_self (pat l : PyStr) : pyReplace pat pat l = l :=
  pyReplaceGo_self pat l.length l le_rfl

theorem pyTitleGo_length : ∀ (b : Bool) (l : PyStr), (pyTitleGo b l).length = l.length := by
  intro b l
  induction l generalizing b with
  | nil => rfl
  | cons c rest ih => simp [pyTitleGo, ih]

theorem pyTitle_length (l : PyStr) : (pyTitle l).length = l.length :=
  pyTitleGo_length false l

/-! ## Claim C1: no content-preservation guard in `apply_treatment` -/

/-- C1, counterexample: the AI service successfully returns the
3-character completion `"abc"` for the 10-character input
`"0123456789"` (ratio 0.3 < 0.8), yet `apply_treatment` returns the
AI output unchanged, which differs from the rule-based treatment of
the original input.  The claimed guard does not exist in
`apply_treatment` (app.py lines 307-331). -/
theorem C1_counterexample :
    10 * (S "abc").length < 8 * (S "0123456789").length ∧
    apply_treatment (some (Except.ok (S "abc"))) (S "0123456789") (S "fix") = S "abc" ∧
    S "abc" ≠ basic_markdown_treatment (S "0123456789") (S "fix") :=
  ⟨by decide, rfl, by decide⟩

/-- C1, amended: whenever the AI text service successfully returns a
completion, `apply_treatment` returns that completion unchanged, even
when its character length is less than 0.8 times the length of the
input markdown; the rule-based engine is used only when the call
raises or the service is unavailable. -/
theorem C1_amended_no_guard (t m p : PyStr) (h : 10 * t.length < 8 * m.length) :
    apply_treatment (some (Except.ok t)) m p = t := rfl

theorem C1_amended_no_guard_witness :
    10 * (S "ab").length < 8 * (S "0123456789").length ∧
    apply_treatment (some (Except.ok (S "ab"))) (S "0123456789") (S "x") = S "ab" :=
  ⟨by decide, C1_amended_no_guard (S "ab") (S "0123456789") (S "x") (by decide)⟩

/-! ## Claim C7: treatment-path failures always fall back locally -/

/-- C7: whenever the remote AI-service call raises (modelled by
`some (Except.error ())`) or the service is unavailable (modelled by
`none`), `apply_treatment` still returns a result, and that result is
exactly `basic_markdown_treatment` applied to the request's markdown
and prompt.  The rule-based engine is a total function of its inputs,
so the treatment path never surfaces a failure. -/
theorem C7_treatment_fallback (m p : PyStr) :
    apply_treatment (some (Except.error ())) m p = basic_markdown_treatment m p ∧
    apply_treatment none m p = basic_markdown_treatment m p :=
  ⟨rfl, rfl⟩

/-! ## Claim C2: retention of the rule-based engine -/

/-- C2, counterexample: for the non-empty 11-character markdown
consisting of ten spaces followed by `'a'`, the rule-based treatment
strips the line down to `"a"`, so the retention ratio is 1/11 < 0.8. -/
theorem C2_counterexample :
    S "          a" ≠ ([] : PyStr) ∧
    10 * (basic_markdown_treatment (S "          a") (S "improve")).length <
      8 * (S "          a").length :=
  ⟨by decide, by decide⟩

/-! ## Claim C4: page markers are not removed, they raise -/

/-- C4: evaluating the code at the failing input.  The spec says the
page-marker line `"## Page 7"` is removed from the cleaned output;
instead `clean_markdown` raises `TypeError` on app.py line 239
(`str.endswith` is called with the boolean `isdigit()` result), so the
call produces no cleaned output at all. -/
theorem C4_page_marker_type_error :
    clean_markdown (S "## Page 7") (S "paper.pdf") [] = .error () := rfl

/-! ## Claim C8: the response sanitizer -/

theorem sub1Go_id_of_no_fence :
    ∀ (fuel : Nat) (a : Bool) (l : PyStr), l.length ≤ fuel →
      hasOpenFence a l = false → sub1Go fuel a l = l := by
  intro fuel
  induction fuel with
  | zero =>
    intro a l h _
    cases l with
    | nil => rfl
    | cons c rest => simp at h
  | succ n ih =>
    intro a l h hf
    cases l with
    | nil => rfl
    | cons c rest =>
      simp only [hasOpenFence, Bool.or_eq_false_iff, Bool.and_eq_false_iff] at hf
      obtain ⟨h1, h2⟩ := hf
      have hlen : rest.length ≤ n := by
        simp only [List.length_cons] at h
        omega
      simp only [sub1Go]
      cases hfo : fenceOpenLen (c :: rest) with
      | none => rw [ih _ rest hlen h2]
      | some k =>
        have ha : a = false := by
          rcases h1 with h1 | h1
          · exact h1
          · rw [hfo] at h1
            simp at h1
        rw [ha]
        simp only [Bool.false_eq_true, if_false]
        rw [ih _ rest hlen h2]

theorem sub1_id_of_no_fence (l : PyStr) (h : hasOpenFence true l = false) : sub1 l = l :=
  sub1Go_id_of_no_fence l.length true l le_rfl h

theorem sub2Go_id_of_no_fence :
    ∀ (fuel : Nat) (l : PyStr), l.length ≤ fuel →
      hasCloseFence l = false → sub2Go fuel l = l := by
  intro fuel
  induction fuel with
  | zero =>
    intro l h _
    cases l with
    | nil => rfl
    | cons c rest => simp at h
  | succ n ih =>
    intro l h hf
    cases l with
    | nil => rfl
    | cons c rest =>
      simp only [hasCloseFence, Bool.or_eq_false_iff] at hf
      obtain ⟨h1, h2⟩ := hf
      have hlen : rest.length ≤ n := by
        simp only [List.length_cons] at h
        omega
      simp only [sub2Go, h1, Bool.false_eq_true, if_false]
      rw [ih rest hlen h2]

theorem sub2_id_of_no_fence (l : PyStr) (h : hasCloseFence l = false) : sub2 l = l :=
  sub2Go_id_of_no_fence l.length l le_rfl h

theorem sub3Go_id_of_no_fence :
    ∀ (fuel : Nat) (a : Bool) (l : PyStr), l.length ≤ fuel →
      hasLoneFence a l = false → sub3Go fuel a l = l := by
  intro fuel
  induction fuel with
  | zero =>
    intro a l h _
    cases l with
    | nil => rfl
    | cons c rest => simp at h
  | succ n ih =>
    intro a l h hf
    cases l with
    | nil => rfl
    | cons c rest =>
      simp only [hasLoneFence, Bool.or_eq_false_iff] at hf
      obtain ⟨h1, h2⟩ := hf
      have hlen : rest.length ≤ n := by
        simp only [List.length_cons] at h
        omega
      simp only [sub3Go, h1, Bool.false_eq_true, if_false]
      rw [ih _ rest hlen h2]

theorem sub3_id_of_no_fence (l : PyStr) (h : hasLoneFence true l = false) : sub3 l = l :=
  sub3Go_id_of_no_fence l.length true l le_rfl h

theorem sanitize_id_of_clean (x : PyStr) (h0 : pyStrip x = x)
    (h1 : hasOpenFence true x = false) (h2 : hasCloseFence x = false)
    (h3 : hasLoneFence true x = false) : sanitize x = x := by
  show sub3 (sub2 (sub1 (pyStrip x))) = x
  rw [h0, sub1_id_of_no_fence x h1, sub2_id_of_no_fence x h2, sub3_id_of_no_fence x h3]

/-- C8, counterexample: the sanitizer is not idempotent.  For the raw
output consisting of an opening code fence followed by the line
`" x"`, the first pass removes the fence line and exposes the leading
space, and only the second pass strips it:
`sanitize("```\n x") = " x"` while `sanitize(sanitize("```\n x")) = "x"`. -/
theorem C8_counterexample :
    sanitize (sanitize (S "```\n x")) ≠ sanitize (S "```\n x") := by decide

/-- C8, amended: the sanitizer is a no-op — and hence idempotent — on
already-clean input: any string with no leading or trailing
whitespace in which none of the three code-fence patterns
(`` ^```\w*\n ``, `` \n```$ ``, `` ^```$ ``, with `re.MULTILINE`
anchors) occurs.  Full idempotence fails: removing a leading fence
line can expose leading whitespace that only a second pass strips
(see the counterexample). -/
theorem C8_amended_clean_noop (x : PyStr) (h0 : pyStrip x = x)
    (h1 : hasOpenFence true x = false) (h2 : hasCloseFence x = false)
    (h3 : hasLoneFence true x = false) :
    sanitize x = x ∧ sanitize (sanitize x) = sanitize x := by
  have hx := sanitize_id_of_clean x h0 h1 h2 h3
  refine ⟨hx, ?_⟩
  rw [hx]
  exact hx

theorem C8_amended_clean_noop_witness :
    (pyStrip (S "# T\nBody") = S "# T\nBody" ∧
      hasOpenFence true (S "# T\nBody") = false ∧
      hasCloseFence (S "# T\nBody") = false ∧
      hasLoneFence true (S "# T\nBody") = false) ∧
    sanitize (S "# T\nBody") = S "# T\nBody" ∧
    sanitize (sanitize (S "# T\nBody")) = sanitize (S "# T\nBody") :=
  ⟨⟨by decide, by decide, by decide, by decide⟩,
    C8_amended_clean_noop (S "# T\nBody") (by decide) (by decide) (by decide) (by decide)⟩

/-! ## Lines and joining -/

theorem pySplitLines_ne_nil (l : PyStr) : pySplitLines l ≠ [] := by
  induction l with
  | nil => simp [pySplitLines]
  | cons c rest ih =>
    simp only [pySplitLines]
    split
    · simp
    · cases hr : pySplitLines rest with
      | nil => simp
      | cons a as => simp

theorem not_mem_nl_pySplitLines :
    ∀ (l : PyStr) (x : PyStr), x ∈ pySplitLines l → 10 ∉ x := by
  intro l
  induction l with
  | nil =>
    intro x hx
    simp only [pySplitLines, List.mem_singleton] at hx
    simp [hx]
  | cons c rest ih =>
    intro x hx
    simp only [pySplitLines] at hx
    by_cases hc : c = 10
    · rw [if_pos hc] at hx
      rcases List.mem_cons.mp hx with h | h
      · simp [h]
      · exact ih x h
    · rw [if_neg hc] at hx
      cases hr : pySplitLines rest with
      | nil => exact absurd hr (pySplitLines_ne_nil rest)
      | cons a as =>
        rw [hr] at hx
        rcases List.mem_cons.mp hx with h | h
        · subst h
          intro hmem
          rcases List.mem_cons.mp hmem with h | h
          · exact hc h.symm
          · exact ih a (hr ▸ List.mem_cons_self a as) h
        · exact ih x (hr ▸ List.mem_cons_of_mem a h)

theorem pySplitLines_of_not_mem_nl :
    ∀ (l : PyStr), 10 ∉ l → pySplitLines l = [l] := by
  intro l
  induction l with
  | nil => intro _; rfl
  | cons c rest ih =>
    intro h
    have hc : c ≠ 10 := fun hh => h (hh ▸ List.mem_cons_self c rest)
    have hrest : 10 ∉ rest := fun hh => h (List.mem_cons_of_mem c hh)
    simp only [pySplitLines, if_neg (fun hh => hc hh)]
    rw [ih hrest]

theorem pySplitLines_append_nl (a b : PyStr) (h : 10 ∉ a) :
    pySplitLines (a ++ 10 :: b) = a :: pySplitLines b := by
  induction a with
  | nil => simp [pySplitLines]
  | cons c a2 ih =>
    have hc : c ≠ 10 := fun hh => h (hh ▸ List.mem_cons_self c a2)
    have ha2 : 10 ∉ a2 := fun hh => h (List.mem_cons_of_mem c hh)
    simp only [List.cons_append, pySplitLines, if_neg (fun hh => hc hh)]
    simp only [List.append_eq]
    rw [ih ha2]

theorem pyJoin_cons (l : PyStr) (ls : List PyStr) (h : ls ≠ []) :
    pyJoin (l :: ls) = l ++ 10 :: pyJoin ls := by
  cases ls with
  | nil => exact absurd rfl h
  | cons a as => rfl

theorem pySplitLines_pyJoin :
    ∀ (ls : List PyStr), ls ≠ [] → (∀ x ∈ ls, 10 ∉ x) →
      pySplitLines (pyJoin ls) = ls := by
  intro ls
  induction ls with
  | nil => intro h _; exact absurd rfl h
  | cons l rest ih =>
    intro _ hmem
    cases rest with
    | nil =>
      show pySplitLines (pyJoin [l]) = [l]
      exact pySplitLines_of_not_mem_nl l (hmem l (List.mem_cons_self l []))
    | cons l2 rest2 =>
      rw [pyJoin_cons l (l2 :: rest2) (by simp)]
      rw [pySplitLines_append_nl l (pyJoin (l2 :: rest2))
        (hmem l (List.mem_cons_self l _))]
      rw [ih (by simp) (fun x hx => hmem x (List.mem_cons_of_mem l hx))]

theorem pyJoin_pySplitLines : ∀ (l : PyStr), pyJoin (pySplitLines l) = l := by
  intro l
  induction l with
  | nil => rfl
  | cons c rest ih =>
    simp only [pySplitLines]
    by_cases hc : c = 10
    · rw [if_pos hc]
      rw [pyJoin_cons [] (pySplitLines rest) (pySplitLines_ne_nil rest)]
      rw [ih, hc]
      rfl
    · rw [if_neg hc]
      cases hr : pySplitLines rest with
      | nil => exact absurd hr (pySplitLines_ne_nil rest)
      | cons a as =>
        rw [hr] at ih
        cases as with
        | nil =>
          show pyJoin [c :: a] = c :: rest
          show c :: a = c :: rest
          rw [show a = pyJoin [a] from rfl, ih]
        | cons a2 as2 =>
          rw [pyJoin_cons (c :: a) (a2 :: as2) (by simp)]
          rw [pyJoin_cons a (a2 :: as2) (by simp)] at ih
          rw [← ih]
          simp

theorem pyJoin_append (xs ys : List PyStr) (hx : xs ≠ []) (hy : ys ≠ []) :
    pyJoin (xs ++ ys) = pyJoin xs ++ 10 :: pyJoin ys := by
  induction xs with
  | nil => exact absurd rfl hx
  | cons x xs2 ih =>
    cases xs2 with
    | nil =>
      show pyJoin (x :: ys) = pyJoin [x] ++ 10 :: pyJoin ys
      rw [pyJoin_cons x ys hy]
      rfl
    | cons x2 xs3 =>
      show pyJoin (x :: (x2 :: xs3 ++ ys)) = pyJoin (x :: x2 :: xs3) ++ 10 :: pyJoin ys
      rw [pyJoin_cons x (x2 :: xs3 ++ ys) (by simp)]
      rw [pyJoin_cons x (x2 :: xs3) (by simp)]
      rw [ih (by simp)]
      simp

/-! ## Character-level facts used by the treatment lemmas -/

theorem mem_of_mem_pyStrip {x : Nat} {l : PyStr} (h : x ∈ pyStrip l) : x ∈ l := by
  unfold pyStrip at h
  rw [List.mem_reverse] at h
  have h1 : x ∈ (l.dropWhile pySpace).reverse := (List.dropWhile_sublist _).subset h
  rw [List.mem_reverse] at h1
  exact (List.dropWhile_sublist _).subset h1

theorem upCode_ne_nl (c : Nat) (hc : c ≠ 10) : upCode c ≠ 10 := by
  unfold upCode
  split
  · omega
  · exact hc

theorem lowCode_ne_nl (c : Nat) (hc : c ≠ 10) : lowCode c ≠ 10 := by
  unfold lowCode
  split
  · omega
  · exact hc

theorem not_mem_nl_pyTitleGo :
    ∀ (b : Bool) (l : PyStr), 10 ∉ l → 10 ∉ pyTitleGo b l := by
  intro b l
  induction l generalizing b with
  | nil => intro h; exact h
  | cons c rest ih =>
    intro h hmem
    have hc : c ≠ 10 := fun hh => h (hh ▸ List.mem_cons_self c rest)
    have hrest : (10 : Nat) ∉ pyTitleGo (isAlphaCode c) rest :=
      ih (isAlphaCode c) (fun hh => h (List.mem_cons_of_mem c hh))
    simp only [pyTitleGo] at hmem
    rcases List.mem_cons.mp hmem with hh | hh
    · revert hh
      split
      · split
        · exact fun hh => lowCode_ne_nl c hc hh.symm
        · exact fun hh => upCode_ne_nl c hc hh.symm
      · exact fun hh => hc hh.symm
    · exact hrest hh

/-! ## Lemmas about `treatLine` -/

theorem treatLine_ne_nil (l : PyStr) : treatLine l ≠ [] := by
  simp only [treatLine]
  repeat' split
  all_goals simp

theorem not_mem_nl_treatLine (l : PyStr) (h : (10 : Nat) ∉ l) :
    ∀ x ∈ treatLine l, (10 : Nat) ∉ x := by
  have h1 : (10 : Nat) ∉ pyStrip l := fun hh => h (mem_of_mem_pyStrip hh)
  intro x hx
  simp only [treatLine, pyReplace_self] at hx
  revert hx
  split
  case isTrue hup =>
    have hx4 : (10 : Nat) ∉ S "## " ++ pyTitle (pyStrip l) := by
      intro hmem
      rcases List.mem_append.mp hmem with hm | hm
      · revert hm
        decide
      · exact not_mem_nl_pyTitleGo false (pyStrip l) h1 hm
    intro hx
    revert hx
    split
    · split
      · intro hx
        rcases List.mem_cons.mp hx with hh | hh
        · exact hh ▸ hx4
        · rcases List.mem_singleton.mp hh with rfl
          simp
      · intro hx
        rcases List.mem_singleton.mp hx with rfl
        exact hx4
    · intro hx
      rcases List.mem_singleton.mp hx with rfl
      exact hx4
  case isFalse hup =>
    intro hx
    revert hx
    split
    · split
      · intro hx
        rcases List.mem_cons.mp hx with hh | hh
        · exact hh ▸ h1
        · rcases List.mem_singleton.mp hh with rfl
          simp
      · intro hx
        rcases List.mem_singleton.mp hx with rfl
        exact h1
    · intro hx
      rcases List.mem_singleton.mp hx with rfl
      exact h1

/-! ## Claim C9: the rule-based engine never loses lines -/

/-- C9: for every input markdown and instruction,
`basic_markdown_treatment` never deletes or merges lines: the number
of lines of the output is at least the number of lines of the input
(every input line contributes one output line, and long paragraph
lines contribute an extra blank line). -/
theorem C9_line_count_monotone (m p : PyStr) :
    (pySplitLines m).length ≤ (pySplitLines (basic_markdown_treatment m p)).length := by
  unfold basic_markdown_treatment
  have h10 : ∀ x ∈ pySplitLines m, (10 : Nat) ∉ x := not_mem_nl_pySplitLines m
  have hflat : ∀ x ∈ ((pySplitLines m).map treatLine).flatten, (10 : Nat) ∉ x := by
    intro x hx
    rw [List.mem_flatten] at hx
    obtain ⟨t, ht, hxt⟩ := hx
    rw [List.mem_map] at ht
    obtain ⟨y, hy, rfl⟩ := ht
    exact not_mem_nl_treatLine y (h10 y hy) x hxt
  have hne : ((pySplitLines m).map treatLine).flatten ≠ [] := by
    cases hm : pySplitLines m with
    | nil => exact absurd hm (pySplitLines_ne_nil m)
    | cons a as =>
      simp only [List.map_cons, List.flatten_cons]
      intro hcontra
      exact treatLine_ne_nil a (List.append_eq_nil.mp hcontra).1
  rw [pySplitLines_pyJoin _ hne hflat]
  have hlen : ∀ zs : List PyStr, zs.length ≤ ((zs.map treatLine).flatten).length := by
    intro zs
    induction zs with
    | nil => simp
    | cons a as ih =>
      simp only [List.map_cons, List.flatten_cons, List.length_append, List.length_cons]
      have ha : 0 < (treatLine a).length := List.length_pos.mpr (treatLine_ne_nil a)
      omega
  exact hlen (pySplitLines m)

/-! ## Claim C2, amended -/

theorem treatLine_shape (l : PyStr) (h : pyStrip l = l) :
    ∃ a : PyStr, (treatLine l = [a] ∨ treatLine l = [a, []]) ∧ l.length ≤ a.length := by
  simp only [treatLine, h, pyReplace_self]
  have htitle : l.length ≤ (S "## " ++ pyTitle l).length := by
    rw [List.length_append, pyTitle_length]
    omega
  split
  · split
    · split
      · exact ⟨S "## " ++ pyTitle l, Or.inr rfl, htitle⟩
      · exact ⟨S "## " ++ pyTitle l, Or.inl rfl, htitle⟩
    · exact ⟨S "## " ++ pyTitle l, Or.inl rfl, htitle⟩
  · split
    · split
      · exact ⟨l, Or.inr rfl, le_rfl⟩
      · exact ⟨l, Or.inl rfl, le_rfl⟩
    · exact ⟨l, Or.inl rfl, le_rfl⟩

theorem pyJoin_treatLine_length (l : PyStr) (h : pyStrip l = l) :
    l.length ≤ (pyJoin (treatLine l)).length := by
  obtain ⟨a, hcase, hlen⟩ := treatLine_shape l h
  rcases hcase with hc | hc <;> rw [hc]
  · exact hlen
  · rw [show pyJoin [a, []] = a ++ [10] from rfl, List.length_append]
    simp only [List.length_singleton]
    omega

theorem basic_length_aux :
    ∀ zs : List PyStr, (∀ x ∈ zs, pyStrip x = x) →
      (pyJoin zs).length ≤ (pyJoin ((zs.map treatLine).flatten)).length := by
  intro zs
  induction zs with
  | nil => intro _; simp
  | cons z rest ih =>
    intro hstr
    cases rest with
    | nil =>
      show (pyJoin [z]).length ≤ (pyJoin (treatLine z ++ [])).length
      rw [List.append_nil]
      exact pyJoin_treatLine_length z (hstr z (List.mem_cons_self z []))
    | cons z2 rest2 =>
      have hne2 : ((z2 :: rest2).map treatLine).flatten ≠ [] := by
        simp only [List.map_cons, List.flatten_cons]
        intro hc
        exact treatLine_ne_nil z2 (List.append_eq_nil.mp hc).1
      have hstep := ih (fun x hx => hstr x (List.mem_cons_of_mem z hx))
      rw [pyJoin_cons z (z2 :: rest2) (by simp)]
      have hsplit : ((z :: z2 :: rest2).map treatLine).flatten
          = treatLine z ++ ((z2 :: rest2).map treatLine).flatten := by
        simp
      rw [hsplit, pyJoin_append _ _ (treatLine_ne_nil z) hne2]
      simp only [List.length_append, List.length_cons]
      have h1 := pyJoin_treatLine_length z (hstr z (List.mem_cons_self z _))
      omega

/-- C2, amended: the retention invariant
`len(treat(m, i)) / len(m) >= 0.8` holds for the rule-based engine for
every non-empty markdown `m` in which no line carries leading or
trailing whitespace (each line equals its own strip).  In general it
fails, because the engine strips every line (see the counterexample,
where ten leading spaces are removed). -/
theorem C2_amended_retention (m i : PyStr) (h1 : m ≠ [])
    (h2 : ∀ l ∈ pySplitLines m, pyStrip l = l) :
    8 * m.length ≤ 10 * (basic_markdown_treatment m i).length := by
  have h3 := basic_length_aux (pySplitLines m) h2
  rw [pyJoin_pySplitLines m] at h3
  unfold basic_markdown_treatment
  omega

theorem C2_amended_retention_witness :
    (S "# Hi\nWORLD" ≠ ([] : PyStr) ∧
      ∀ l ∈ pySplitLines (S "# Hi\nWORLD"), pyStrip l = l) ∧
    8 * (S "# Hi\nWORLD").length ≤
      10 * (basic_markdown_treatment (S "# Hi\nWORLD") (S "x")).length :=
  ⟨⟨by decide, by decide⟩,
    C2_amended_retention (S "# Hi\nWORLD") (S "x") (by decide) (by decide)⟩

/-! ## Lemmas about the cleaning loop -/

theorem consOut_eq_ok {x : PyStr} {r : Except Unit (List PyStr × Bool × Nat)}
    {out : List PyStr} {ts' : Bool} {idx' : Nat}
    (h : consOut x r = .ok (out, ts', idx')) :
    ∃ o', r = .ok (o', ts', idx') ∧ out = x :: o' := by
  cases r with
  | error e => simp [consOut, Except.map] at h
  | ok p =>
    obtain ⟨o, t, i⟩ := p
    have h' : Except.ok (ε := Unit) (x :: o, t, i) = Except.ok (out, ts', idx') := h
    injection h' with h''
    cases h''
    exact ⟨o, rfl, rfl⟩

theorem consOut_error {x : PyStr} {r : Except Unit (List PyStr × Bool × Nat)}
    (h : r = .error ()) : consOut x r = .error () := by
  rw [h]
  rfl

theorem cleanLoop_error_of_pageMarker :
    ∀ (lines : List PyStr) (f : PyStr) (u : List PyStr) (ts : Bool) (idx : Nat),
      (∃ l ∈ lines, pageMarkerHit l = true) →
      cleanLoop f u lines ts idx = .error () := by
  intro lines
  induction lines with
  | nil =>
    intro f u ts idx h
    obtain ⟨l, hl, _⟩ := h
    simp at hl
  | cons line rest ih =>
    intro f u ts idx h
    simp only [cleanLoop]
    by_cases hpm : pageMarkerHit line = true
    · rw [if_pos hpm]
    · rw [if_neg hpm]
      have hrest : ∃ l ∈ rest, pageMarkerHit l = true := by
        obtain ⟨l, hl, hpl⟩ := h
        rcases List.mem_cons.mp hl with rfl | hl2
        · exact absurd hpl hpm
        · exact ⟨l, hl2, hpl⟩
      repeat' split
      all_goals first
        | exact consOut_error (ih f u _ _ hrest)
        | exact ih f u _ _ hrest

theorem cleanLoop_ok_no_pageMarker :
    ∀ (lines : List PyStr) (f : PyStr) (u : List PyStr) (ts : Bool) (idx : Nat)
      (res : List PyStr × Bool × Nat),
      cleanLoop f u lines ts idx = .ok res →
      ∀ l ∈ lines, pageMarkerHit l = false := by
  intro lines
  induction lines with
  | nil => intro f u ts idx res _ l hl; simp at hl
  | cons line rest ih =>
    intro f u ts idx res h l hl
    simp only [cleanLoop] at h
    by_cases hpm : pageMarkerHit line = true
    · rw [if_pos hpm] at h
      exact absurd h (by simp)
    · rw [if_neg hpm] at h
      rcases List.mem_cons.mp hl with rfl | hl2
      · exact Bool.not_eq_true _ ▸ by simpa using hpm
      · revert h
        repeat' split
        all_goals intro h
        all_goals obtain ⟨ro, rt, ri⟩ := res
        all_goals first
          | (obtain ⟨o', ho', _⟩ := consOut_eq_ok h
             exact ih f u _ _ _ ho' l hl2)
          | exact ih f u _ _ _ h l hl2

theorem hash_isPrefixOf_figureLine (idx : Nat) (url : PyStr) :
    (S "# ").isPrefixOf (figureLine idx url) = false := rfl

theorem hh_isPrefixOf_figureLine (idx : Nat) (url : PyStr) :
    (S "## ").isPrefixOf (figureLine idx url) = false := rfl

theorem hash_isPrefixOf_imageNotice : (S "# ").isPrefixOf imageNotice = false := by decide

theorem hh_isPrefixOf_imageNotice : (S "## ").isPrefixOf imageNotice = false := by decide

theorem cleanLoop_countP :
    ∀ (lines : List PyStr) (f : PyStr) (u : List PyStr) (ts : Bool) (idx : Nat)
      (out : List PyStr) (ts' : Bool) (idx' : Nat),
      cleanLoop f u lines ts idx = .ok (out, ts', idx') →
      out.countP (fun l => (S "# ").isPrefixOf l) ≤
          lines.countP (fun l => (S "# ").isPrefixOf l) ∧
        (ts = true → ts' = true) ∧
        (ts' = false → out.countP (fun l => (S "# ").isPrefixOf l) = 0) := by
  intro lines
  induction lines with
  | nil =>
    intro f u ts idx out ts' idx' h
    have h' : Except.ok (ε := Unit) (([] : List PyStr), ts, idx) = .ok (out, ts', idx') := h
    injection h' with h''
    cases h''
    exact ⟨Nat.le_refl _, fun ht => ht, fun _ => rfl⟩
  | cons line rest ih =>
    intro f u ts idx out ts' idx' h
    simp only [cleanLoop] at h
    by_cases hpm : pageMarkerHit line = true
    · rw [if_pos hpm] at h
      exact absurd h (by simp)
    · rw [if_neg hpm] at h
      by_cases him : isImageLine line = true
      · rw [if_pos him] at h
        have himg : ∀ (y : PyStr), (S "# ").isPrefixOf y = false →
            ∀ (o' : List PyStr) (idx0 : Nat),
            cleanLoop f u rest ts idx0 = .ok (o', ts', idx') →
            (y :: o').countP (fun l => (S "# ").isPrefixOf l) ≤
                (line :: rest).countP (fun l => (S "# ").isPrefixOf l) ∧
              (ts = true → ts' = true) ∧
              (ts' = false →
                (y :: o').countP (fun l => (S "# ").isPrefixOf l) = 0) := by
          intro y hy o' idx0 ho'
          obtain ⟨ih1, ih2, ih3⟩ := ih f u ts idx0 o' ts' idx' ho'
          refine ⟨?_, ih2, ?_⟩
          · rw [List.countP_cons, List.countP_cons, hy]
            simp only [Bool.false_eq_true, if_false, Nat.add_zero]
            exact Nat.le_trans ih1 (Nat.le_add_right _ _)
          · intro hts
            rw [List.countP_cons, hy]
            simp only [Bool.false_eq_true, if_false, Nat.add_zero]
            exact ih3 hts
        by_cases hlt : idx < u.length
        · rw [if_pos hlt] at h
          obtain ⟨o', ho', hout⟩ := consOut_eq_ok h
          subst hout
          exact himg _ (hash_isPrefixOf_figureLine idx (u.getD idx [])) o' (idx + 1) ho'
        · rw [if_neg hlt] at h
          obtain ⟨o', ho', hout⟩ := consOut_eq_ok h
          subst hout
          exact himg _ hash_isPrefixOf_imageNotice o' idx ho'
      · rw [if_neg him] at h
        by_cases hb1 : ((S "# ").isPrefixOf line = true) ∧ ts = false
        · rw [if_pos hb1] at h
          obtain ⟨o', ho', hout⟩ := consOut_eq_ok h
          subst hout
          obtain ⟨ih1, ih2, ih3⟩ := ih f u true idx o' ts' idx' ho'
          have hts' : ts' = true := ih2 rfl
          refine ⟨?_, fun _ => hts', fun hc => absurd hts' (by simp [hc])⟩
          rw [List.countP_cons, List.countP_cons, hb1.1]
          simp only [if_pos]
          exact Nat.add_le_add_right ih1 1
        · rw [if_neg hb1] at h
          by_cases hb2 : ((S "#").isPrefixOf line = true) ∧
              pyStrip line ≠ S "# " ++ fnameStem f
          · rw [if_pos hb2] at h
            obtain ⟨o', ho', hout⟩ := consOut_eq_ok h
            subst hout
            obtain ⟨ih1, ih2, ih3⟩ := ih f u ts idx o' ts' idx' ho'
            refine ⟨?_, ih2, ?_⟩
            · rw [List.countP_cons, List.countP_cons]
              exact Nat.add_le_add_right ih1 _
            · intro hts
              have hPl : (S "# ").isPrefixOf line = false := by
                cases hx : (S "# ").isPrefixOf line
                · rfl
                · have hts0 : ts = true := by
                    cases hts1 : ts
                    · exact absurd ⟨hx, hts1⟩ hb1
                    · rfl
                  exact absurd (ih2 hts0) (by simp [hts])
              rw [List.countP_cons, hPl]
              simp only [Bool.false_eq_true, if_false, Nat.add_zero]
              exact ih3 hts
          · rw [if_neg hb2] at h
            by_cases hb3 : ((S "# ").isPrefixOf line : Bool) = false
            · rw [if_pos hb3] at h
              obtain ⟨o', ho', hout⟩ := consOut_eq_ok h
              subst hout
              obtain ⟨ih1, ih2, ih3⟩ := ih f u ts idx o' ts' idx' ho'
              refine ⟨?_, ih2, ?_⟩
              · rw [List.countP_cons, List.countP_cons]
                exact Nat.add_le_add_right ih1 _
              · intro hts
                rw [List.countP_cons, hb3]
                simp only [Bool.false_eq_true, if_false, Nat.add_zero]
                exact ih3 hts
            · rw [if_neg hb3] at h
              obtain ⟨ih1, ih2, ih3⟩ := ih f u ts idx out ts' idx' h
              refine ⟨?_, ih2, ih3⟩
              rw [List.countP_cons]
              exact Nat.le_trans ih1 (Nat.le_add_right _ _)

theorem natDigitsGo_mem_bounds :
    ∀ (fuel n c : Nat), c ∈ natDigitsGo fuel n → 48 ≤ c ∧ c ≤ 57 := by
  intro fuel
  induction fuel with
  | zero =>
    intro n c hc
    simp [natDigitsGo] at hc
  | succ k ih =>
    intro n c hc
    simp only [natDigitsGo] at hc
    split at hc
    · next hn =>
      rcases List.mem_singleton.mp hc with rfl
      omega
    · rcases List.mem_append.mp hc with h | h
      · exact ih _ _ h
      · rcases List.mem_singleton.mp h with rfl
        have := Nat.mod_lt n (show 0 < 10 by omega)
        omega

theorem not_mem_nl_natDigits (n : Nat) : (10 : Nat) ∉ natDigits n := by
  intro h
  have := natDigitsGo_mem_bounds (n + 1) n 10 h
  omega

theorem not_mem_nl_figureLine (idx : Nat) (url : PyStr) (h : (10 : Nat) ∉ url) :
    (10 : Nat) ∉ figureLine idx url := by
  intro hmem
  unfold figureLine at hmem
  rcases List.mem_append.mp hmem with h1 | h1
  · rcases List.mem_append.mp h1 with h2 | h2
    · rcases List.mem_append.mp h2 with h3 | h3
      · rcases List.mem_append.mp h3 with h4 | h4
        · revert h4
          decide
        · exact not_mem_nl_natDigits _ h4
      · revert h3
        decide
    · exact h h2
  · revert h1
    decide

theorem not_mem_nl_getD {u : List PyStr} (h : ∀ v ∈ u, (10 : Nat) ∉ v) :
    ∀ i : Nat, (10 : Nat) ∉ u.getD i [] := by
  induction u with
  | nil =>
    intro i hx
    simp [List.getD] at hx
  | cons a as ih =>
    intro i
    cases i with
    | zero => exact h a (List.mem_cons_self a as)
    | succ j => exact ih (fun v hv => h v (List.mem_cons_of_mem a hv)) j

theorem cleanLoop_not_mem_nl :
    ∀ (lines : List PyStr) (f : PyStr) (u : List PyStr) (ts : Bool) (idx : Nat)
      (out : List PyStr) (ts' : Bool) (idx' : Nat),
      cleanLoop f u lines ts idx = .ok (out, ts', idx') →
      (∀ l ∈ lines, (10 : Nat) ∉ l) → (∀ v ∈ u, (10 : Nat) ∉ v) →
      ∀ l ∈ out, (10 : Nat) ∉ l := by
  intro lines
  induction lines with
  | nil =>
    intro f u ts idx out ts' idx' h _ _
    have h' : Except.ok (ε := Unit) (([] : List PyStr), ts, idx) = .ok (out, ts', idx') := h
    injection h' with h''
    cases h''
    intro l hl
    simp at hl
  | cons line rest ih =>
    intro f u ts idx out ts' idx' h hlines hu
    have hline : (10 : Nat) ∉ line := hlines line (List.mem_cons_self _ _)
    have hrest : ∀ l ∈ rest, (10 : Nat) ∉ l :=
      fun l hl => hlines l (List.mem_cons_of_mem _ hl)
    simp only [cleanLoop] at h
    by_cases hpm : pageMarkerHit line = true
    · rw [if_pos hpm] at h
      exact absurd h (by simp)
    · rw [if_neg hpm] at h
      have hcons : ∀ (y : PyStr), (10 : Nat) ∉ y →
          ∀ (o' : List PyStr) (ts0 : Bool) (idx0 : Nat),
          cleanLoop f u rest ts0 idx0 = .ok (o', ts', idx') →
          ∀ l ∈ y :: o', (10 : Nat) ∉ l := by
        intro y hy o' ts0 idx0 ho' l hl
        rcases List.mem_cons.mp hl with rfl | hl2
        · exact hy
        · exact ih f u ts0 idx0 o' ts' idx' ho' hrest hu l hl2
      by_cases him : isImageLine line = true
      · rw [if_pos him] at h
        by_cases hlt : idx < u.length
        · rw [if_pos hlt] at h
          obtain ⟨o', ho', hout⟩ := consOut_eq_ok h
          subst hout
          exact hcons _ (not_mem_nl_figureLine idx _ (not_mem_nl_getD hu idx)) o' ts (idx + 1) ho'
        · rw [if_neg hlt] at h
          obtain ⟨o', ho', hout⟩ := consOut_eq_ok h
          subst hout
          exact hcons _ (by decide) o' ts idx ho'
      · rw [if_neg him] at h
        by_cases hb1 : ((S "# ").isPrefixOf line = true) ∧ ts = false
        · rw [if_pos hb1] at h
          obtain ⟨o', ho', hout⟩ := consOut_eq_ok h
          subst hout
          exact hcons _ hline o' true idx ho'
        · rw [if_neg hb1] at h
          by_cases hb2 : ((S "#").isPrefixOf line = true) ∧
              pyStrip line ≠ S "# " ++ fnameStem f
          · rw [if_pos hb2] at h
            obtain ⟨o', ho', hout⟩ := consOut_eq_ok h
            subst hout
            exact hcons _ hline o' ts idx ho'
          · rw [if_neg hb2] at h
            by_cases hb3 : ((S "# ").isPrefixOf line : Bool) = false
            · rw [if_pos hb3] at h
              obtain ⟨o', ho', hout⟩ := consOut_eq_ok h
              subst hout
              exact hcons _ hline o' ts idx ho'
            · rw [if_neg hb3] at h
              exact ih f u ts idx out ts' idx' h hrest hu

theorem isPrefixOf_append_self (p t : PyStr) : p.isPrefixOf (p ++ t) = true := by
  rw [List.isPrefixOf_iff_prefix]
  exact ⟨t, rfl⟩

theorem eraseFirstHH_some :
    ∀ (ls : List PyStr) (x : PyStr) (rest : List PyStr),
      eraseFirstHH ls = some (x, rest) →
      ∃ pre post, ls = pre ++ x :: post ∧ rest = pre ++ post ∧
        (S "## ").isPrefixOf x = true := by
  intro ls
  induction ls with
  | nil =>
    intro x rest h
    simp [eraseFirstHH] at h
  | cons l t ih =>
    intro x rest h
    simp only [eraseFirstHH] at h
    split at h
    · next hl =>
      injection h with h'
      cases h'
      exact ⟨[], t, rfl, rfl, hl⟩
    · next hl =>
      cases ht : eraseFirstHH t with
      | none =>
        rw [ht] at h
        simp at h
      | some p =>
        rw [ht] at h
        obtain ⟨x0, r0⟩ := p
        injection h with h'
        cases h'
        obtain ⟨pre, post, hls, hrest, hx⟩ := ih x0 r0 ht
        refine ⟨l :: pre, post, ?_, ?_, hx⟩
        · rw [List.cons_append, ← hls]
        · rw [List.cons_append, ← hrest]

theorem not_mem_pyReplaceGo {c : Nat} (pat rep : PyStr) (hrep : c ∉ rep) :
    ∀ (fuel : Nat) (l : PyStr), c ∉ l → c ∉ pyReplaceGo pat rep fuel l := by
  intro fuel
  induction fuel with
  | zero =>
    intro l hl
    cases l with
    | nil => simp [pyReplaceGo]
    | cons a rest => exact hl
  | succ k ih =>
    intro l hl
    cases l with
    | nil => simp [pyReplaceGo]
    | cons a rest =>
      simp only [pyReplaceGo]
      split
      · intro hmem
        rcases List.mem_append.mp hmem with h1 | h1
        · exact hrep h1
        · refine ih _ ?_ h1
          intro hd
          exact hl ((List.drop_sublist _ _).subset hd)
      · intro hmem
        rcases List.mem_cons.mp hmem with rfl | h1
        · exact hl (List.mem_cons_self _ _)
        · exact ih _ (fun hx => hl (List.mem_cons_of_mem _ hx)) h1

theorem not_mem_pyReplace {c : Nat} (pat rep l : PyStr) (hrep : c ∉ rep) (hl : c ∉ l) :
    c ∉ pyReplace pat rep l :=
  not_mem_pyReplaceGo pat rep hrep l.length l hl

theorem not_mem_nl_fnameTitle (f : PyStr) (hf : (10 : Nat) ∉ f) :
    (10 : Nat) ∉ fnameTitle f := by
  unfold fnameTitle fnameStem
  apply not_mem_nl_pyTitleGo
  apply not_mem_pyReplace _ _ _ (by decide)
  apply not_mem_pyReplace _ _ _ (by decide)
  apply not_mem_pyReplace _ _ _ (by decide)
  exact hf

/-! ## Claim C10: page markers make cleaning raise -/

/-- C10: for every input markdown containing a line whose
whitespace-stripped form starts with `'## Page '` followed by further
text, `clean_markdown` raises `TypeError` (line 239 calls
`str.endswith` with the boolean result of `isdigit()`), modelled as
`Except.error ()`: no such input is cleaned to a result at all. -/
theorem C10_page_marker_raises (content f : PyStr) (u : List PyStr)
    (h : ∃ l ∈ pySplitLines content,
        (S "## Page ").isPrefixOf (pyStrip l) = true ∧ 8 < (pyStrip l).length) :
    clean_markdown content f u = .error () := by
  unfold clean_markdown
  rw [cleanLoop_error_of_pageMarker (pySplitLines content) f u false 0 ?_]
  · obtain ⟨l, hl, hp, _⟩ := h
    exact ⟨l, hl, hp⟩

theorem C10_page_marker_raises_witness :
    (∃ l ∈ pySplitLines (S "Intro\n## Page 12\nMore"),
        (S "## Page ").isPrefixOf (pyStrip l) = true ∧ 8 < (pyStrip l).length) ∧
    clean_markdown (S "Intro\n## Page 12\nMore") (S "paper.pdf") [] = .error () :=
  ⟨by decide, C10_page_marker_raises _ _ _ (by decide)⟩

/-! ## Claim C3: at most one top-level heading after cleaning -/

/-- C3, counterexample: when the input itself carries two top-level
headings, the cleaning loop keeps both — the first through the
`title_set` branch, the second through the pass-through branch for
lines starting with `'#'` that differ from the filename stub — so the
cleaned output contains two lines starting with `'# '`. -/
theorem C3_counterexample :
    clean_markdown (S "# A\n# B") (S "x.pdf") [] = .ok (S "# A\n# B") ∧
    ¬ ((pySplitLines (S "# A\n# B")).countP
        (fun l => (S "# ").isPrefixOf l) ≤ 1) :=
  ⟨rfl, by decide⟩

/-- C3, amended: for every input markdown containing at most one line
starting with `'# '`, every newline-free source filename and every
list of newline-free image URLs, if `clean_markdown` returns a result
then that result contains at most one line starting with `'# '`. -/
theorem C3_amended_single_title (content filename : PyStr) (urls : List PyStr) (r : PyStr)
    (hf : (10 : Nat) ∉ filename)
    (hu : ∀ v ∈ urls, (10 : Nat) ∉ v)
    (hcount : (pySplitLines content).countP (fun l => (S "# ").isPrefixOf l) ≤ 1)
    (hok : clean_markdown content filename urls = .ok r) :
    (pySplitLines r).countP (fun l => (S "# ").isPrefixOf l) ≤ 1 := by
  unfold clean_markdown at hok
  cases hres : cleanLoop filename urls (pySplitLines content) false 0 with
  | error e =>
    rw [hres] at hok
    exact absurd hok (by simp)
  | ok res =>
    rw [hres] at hok
    obtain ⟨cleaned, ts, idxf⟩ := res
    have hr : r = pyJoin (if ts then cleaned else promoteTitle filename cleaned) := by
      injection hok with h'
      exact h'.symm
    obtain ⟨hc1, _, hc3⟩ := cleanLoop_countP _ filename urls false 0 cleaned ts idxf hres
    have hnl : ∀ l ∈ cleaned, (10 : Nat) ∉ l :=
      cleanLoop_not_mem_nl _ filename urls false 0 cleaned ts idxf hres
        (not_mem_nl_pySplitLines content) hu
    cases ts with
    | true =>
      simp only [if_pos] at hr
      cases hcl : cleaned with
      | nil =>
        rw [hcl] at hr
        subst hr
        decide
      | cons c0 cs =>
        rw [hcl] at hr hnl hc1
        subst hr
        rw [pySplitLines_pyJoin (c0 :: cs) (by simp) hnl]
        exact Nat.le_trans hc1 hcount
    | false =>
      have hc0 : cleaned.countP (fun l => (S "# ").isPrefixOf l) = 0 := hc3 rfl
      simp only [Bool.false_eq_true, if_false] at hr
      unfold promoteTitle at hr
      cases he : eraseFirstHH cleaned with
      | some p =>
        rw [he] at hr
        obtain ⟨x, restp⟩ := p
        obtain ⟨pre, post, hls, hrest, hx⟩ := eraseFirstHH_some cleaned x restp he
        have hxmem : x ∈ cleaned := by
          rw [hls]
          exact List.mem_append_right pre (List.mem_cons_self x post)
        have hhead_nl : (10 : Nat) ∉ S "# " ++ x.drop 3 := by
          intro hm
          rcases List.mem_append.mp hm with h1 | h1
          · revert h1
            decide
          · exact hnl x hxmem ((List.drop_sublist _ _).subset h1)
        have hrest_nl : ∀ l ∈ restp, (10 : Nat) ∉ l := by
          intro l hl
          apply hnl
          rw [hls]
          rw [hrest] at hl
          rcases List.mem_append.mp hl with h1 | h1
          · exact List.mem_append_left _ h1
          · exact List.mem_append_right _ (List.mem_cons_of_mem x h1)
        have hall : ∀ l ∈ (S "# " ++ x.drop 3) :: restp, (10 : Nat) ∉ l := by
          intro l hl
          rcases List.mem_cons.mp hl with rfl | h1
          · exact hhead_nl
          · exact hrest_nl l h1
        subst hr
        rw [pySplitLines_pyJoin _ (by simp) hall]
        rw [List.countP_cons, isPrefixOf_append_self]
        have hrestc : restp.countP (fun l => (S "# ").isPrefixOf l) = 0 := by
          rw [hls, List.countP_append, List.countP_cons] at hc0
          rw [hrest, List.countP_append]
          omega
        rw [hrestc]
        simp
      | none =>
        rw [he] at hr
        have hA : (10 : Nat) ∉ S "# " ++ fnameTitle filename := by
          intro hm
          rcases List.mem_append.mp hm with h1 | h1
          · revert h1
            decide
          · exact not_mem_nl_fnameTitle filename hf h1
        cases hcl : cleaned with
        | nil =>
          rw [hcl] at hr
          have hr2 : r = (S "# " ++ fnameTitle filename) ++ 10 :: [] := hr
          subst hr2
          rw [pySplitLines_append_nl _ _ hA]
          rw [List.countP_cons, isPrefixOf_append_self]
          simp only [pySplitLines, List.countP_nil]
          decide
        | cons c0 cs =>
          rw [hcl] at hr hnl hc0
          have hr2 : r = (S "# " ++ fnameTitle filename) ++
              10 :: (10 :: pyJoin (c0 :: cs)) := by
            rw [hr, pyJoin_cons _ _ (by simp)]
            simp
          subst hr2
          rw [pySplitLines_append_nl _ _ hA]
          rw [List.countP_cons, isPrefixOf_append_self]
          have hsp : pySplitLines (10 :: pyJoin (c0 :: cs)) =
              [] :: pySplitLines (pyJoin (c0 :: cs)) := by
            simp [pySplitLines]
          rw [hsp, List.countP_cons]
          rw [pySplitLines_pyJoin (c0 :: cs) (by simp) hnl]
          rw [hc0]
          simp only [Nat.add_zero]
          decide

theorem C3_amended_single_title_witness :
    ((10 : Nat) ∉ S "x.pdf" ∧
      (pySplitLines (S "# T\nBody")).countP (fun l => (S "# ").isPrefixOf l) ≤ 1 ∧
      clean_markdown (S "# T\nBody") (S "x.pdf") [] = .ok (S "# T\nBody")) ∧
    (pySplitLines (S "# T\nBody")).countP (fun l => (S "# ").isPrefixOf l) ≤ 1 :=
  ⟨⟨by decide, by decide, rfl⟩,
    C3_amended_single_title (S "# T\nBody") (S "x.pdf") [] (S "# T\nBody")
      (by decide) (by decide) (by decide) rfl⟩

/-! ## Characterizing the loop through `cleanMap` -/

theorem isPrefixOf_trans_false {p q x : PyStr} (hpq : p <+: q)
    (h : p.isPrefixOf x = false) : q.isPrefixOf x = false := by
  cases hx : q.isPrefixOf x
  · rfl
  · exfalso
    rw [List.isPrefixOf_iff_prefix] at hx
    have hp : p.isPrefixOf x = true := by
      rw [List.isPrefixOf_iff_prefix]
      exact hpq.trans hx
    rw [hp] at h
    exact absurd h (by simp)

theorem cleanLoop_eq_cleanMap :
    ∀ (lines : List PyStr) (f : PyStr) (u : List PyStr) (ts : Bool) (idx : Nat),
      (∀ l ∈ lines, pageMarkerHit l = false) →
      (∀ l ∈ lines, isImageLine l = false → (S "# ").isPrefixOf l = false) →
      ∃ idx', cleanLoop f u lines ts idx = .ok (cleanMap u idx lines, ts, idx') := by
  intro lines
  induction lines with
  | nil =>
    intro f u ts idx _ _
    exact ⟨idx, rfl⟩
  | cons line rest ih =>
    intro f u ts idx hpm hline
    have hpm1 : pageMarkerHit line = false := hpm line (List.mem_cons_self _ _)
    have hpmr : ∀ l ∈ rest, pageMarkerHit l = false :=
      fun l hl => hpm l (List.mem_cons_of_mem _ hl)
    have hhr : ∀ l ∈ rest, isImageLine l = false → (S "# ").isPrefixOf l = false :=
      fun l hl => hline l (List.mem_cons_of_mem _ hl)
    simp only [cleanLoop, cleanMap]
    rw [if_neg (by simp [hpm1])]
    by_cases him : isImageLine line = true
    · rw [if_pos him, if_pos him]
      by_cases hlt : idx < u.length
      · rw [if_pos hlt, if_pos hlt]
        obtain ⟨idx', hrec⟩ := ih f u ts (idx + 1) hpmr hhr
        refine ⟨idx', ?_⟩
        rw [hrec]
        rfl
      · rw [if_neg hlt, if_neg hlt]
        obtain ⟨idx', hrec⟩ := ih f u ts idx hpmr hhr
        refine ⟨idx', ?_⟩
        rw [hrec]
        rfl
    · rw [if_neg him, if_neg him]
      have him' : isImageLine line = false := by
        cases h : isImageLine line
        · rfl
        · exact absurd h him
      have hP : (S "# ").isPrefixOf line = false :=
        hline line (List.mem_cons_self _ _) him'
      rw [if_neg (by simp [hP])]
      obtain ⟨idx', hrec⟩ := ih f u ts idx hpmr hhr
      by_cases hb2 : ((S "#").isPrefixOf line = true) ∧
          pyStrip line ≠ S "# " ++ fnameStem f
      · rw [if_pos hb2]
        refine ⟨idx', ?_⟩
        rw [hrec]
        rfl
      · rw [if_neg hb2, if_pos hP]
        refine ⟨idx', ?_⟩
        rw [hrec]
        rfl

theorem eraseFirstHH_eq_none :
    ∀ ls : List PyStr, (∀ l ∈ ls, (S "## ").isPrefixOf l = false) →
      eraseFirstHH ls = none := by
  intro ls
  induction ls with
  | nil => intro _; rfl
  | cons l t ih =>
    intro h
    simp only [eraseFirstHH]
    rw [if_neg (by simp [h l (List.mem_cons_self _ _)])]
    rw [ih (fun x hx => h x (List.mem_cons_of_mem _ hx))]

theorem cleanMap_append_no_image (u : List PyStr) :
    ∀ (as bs : List PyStr) (idx : Nat), (∀ x ∈ as, isImageLine x = false) →
      cleanMap u idx (as ++ bs) = as ++ cleanMap u idx bs := by
  intro as
  induction as with
  | nil => intro bs idx _; rfl
  | cons a as2 ih =>
    intro bs idx h
    simp only [List.cons_append, cleanMap]
    rw [if_neg (by simp [h a (List.mem_cons_self _ _)])]
    simp only [List.append_eq]
    rw [ih bs idx (fun x hx => h x (List.mem_cons_of_mem _ hx))]

theorem cleanMap_id_of_no_image (u : List PyStr) (as : List PyStr) (idx : Nat)
    (h : ∀ x ∈ as, isImageLine x = false) : cleanMap u idx as = as := by
  have h2 := cleanMap_append_no_image u as [] idx h
  rw [List.append_nil] at h2
  rw [h2]
  rw [show cleanMap u idx [] = ([] : List PyStr) from rfl, List.append_nil]

theorem cleanMap_not_mem_nl (u : List PyStr) (hu : ∀ v ∈ u, (10 : Nat) ∉ v) :
    ∀ (ls : List PyStr) (idx : Nat), (∀ l ∈ ls, (10 : Nat) ∉ l) →
      ∀ y ∈ cleanMap u idx ls, (10 : Nat) ∉ y := by
  intro ls
  induction ls with
  | nil =>
    intro idx _ y hy
    simp [cleanMap] at hy
  | cons l t ih =>
    intro idx hls y hy
    have hl : (10 : Nat) ∉ l := hls l (List.mem_cons_self _ _)
    have ht : ∀ x ∈ t, (10 : Nat) ∉ x := fun x hx => hls x (List.mem_cons_of_mem _ hx)
    simp only [cleanMap] at hy
    by_cases him : isImageLine l = true
    · rw [if_pos him] at hy
      by_cases hlt : idx < u.length
      · rw [if_pos hlt] at hy
        rcases List.mem_cons.mp hy with rfl | hy2
        · exact not_mem_nl_figureLine idx _ (not_mem_nl_getD hu idx)
        · exact ih (idx + 1) ht y hy2
      · rw [if_neg hlt] at hy
        rcases List.mem_cons.mp hy with rfl | hy2
        · decide
        · exact ih idx ht y hy2
    · rw [if_neg him] at hy
      rcases List.mem_cons.mp hy with rfl | hy2
      · exact hl
      · exact ih idx ht y hy2

theorem clean_markdown_of_loop_ok {content filename : PyStr} {urls : List PyStr}
    {cleaned : List PyStr} {ts : Bool} {idxf : Nat}
    (h : cleanLoop filename urls (pySplitLines content) false 0 = .ok (cleaned, ts, idxf)) :
    clean_markdown content filename urls =
      .ok (pyJoin (if ts then cleaned else promoteTitle filename cleaned)) := by
  unfold clean_markdown
  rw [h]

theorem cleanMap_cons_image (u : List PyStr) (ls : List PyStr) (idx : Nat) (l : PyStr)
    (him : isImageLine l = true) :
    cleanMap u idx (l :: ls) =
      if idx < u.length then figureLine idx (u.getD idx []) :: cleanMap u (idx + 1) ls
      else imageNotice :: cleanMap u idx ls := by
  simp only [cleanMap]
  rw [if_pos him]

/-! ## Claim C5: image binding order -/

/-- C5: given raw markdown whose broken placeholders are, in document
order, `p1`, `p2`, `p3` (each matching one of the two recognized
broken shapes), separated by arbitrary non-placeholder lines, and
`imageUrls = [u1, u2]`, `clean_markdown` replaces `p1` by the image
reference `![Figure 1](u1)`, `p2` by `![Figure 2](u2)`, and `p3` by
the plain-text fallback notice; every placeholder consumes the next
unused URL in document order, and placeholders beyond the list's
length degrade to the textual notice.  (A synthesized title is
prepended since no heading survives; the surrounding lines are
hash-free and newline-free so that they pass through unchanged.) -/
theorem C5_image_binding_order
    (xs0 xs1 xs2 xs3 : List PyStr) (p1 p2 p3 u1 u2 filename : PyStr)
    (hx : ∀ x ∈ xs0 ++ xs1 ++ xs2 ++ xs3,
        pageMarkerHit x = false ∧ isImageLine x = false ∧
          (S "#").isPrefixOf x = false ∧ (10 : Nat) ∉ x)
    (hp : ∀ q ∈ [p1, p2, p3],
        pageMarkerHit q = false ∧ isImageLine q = true ∧ (10 : Nat) ∉ q) :
    clean_markdown
        (pyJoin (xs0 ++ p1 :: (xs1 ++ p2 :: (xs2 ++ p3 :: xs3))))
        filename [u1, u2] =
      .ok (pyJoin ((S "# " ++ fnameTitle filename ++ [10]) ::
        (xs0 ++ figureLine 0 u1 :: (xs1 ++ figureLine 1 u2 ::
          (xs2 ++ imageNotice :: xs3))))) := by
  have hin0 : ∀ x ∈ xs0, x ∈ xs0 ++ xs1 ++ xs2 ++ xs3 := by
    intro x h0
    simp only [List.mem_append]
    tauto
  have hin1 : ∀ x ∈ xs1, x ∈ xs0 ++ xs1 ++ xs2 ++ xs3 := by
    intro x h0
    simp only [List.mem_append]
    tauto
  have hin2 : ∀ x ∈ xs2, x ∈ xs0 ++ xs1 ++ xs2 ++ xs3 := by
    intro x h0
    simp only [List.mem_append]
    tauto
  have hin3 : ∀ x ∈ xs3, x ∈ xs0 ++ xs1 ++ xs2 ++ xs3 := by
    intro x h0
    simp only [List.mem_append]
    tauto
  have hmemdisp : ∀ l ∈ xs0 ++ p1 :: (xs1 ++ p2 :: (xs2 ++ p3 :: xs3)),
      l ∈ xs0 ++ xs1 ++ xs2 ++ xs3 ∨ l = p1 ∨ l = p2 ∨ l = p3 := by
    intro l hl
    simp only [List.mem_append, List.mem_cons] at hl ⊢
    tauto
  have h10 : ∀ l ∈ xs0 ++ p1 :: (xs1 ++ p2 :: (xs2 ++ p3 :: xs3)), (10 : Nat) ∉ l := by
    intro l hl
    rcases hmemdisp l hl with h | rfl | rfl | rfl
    · exact (hx l h).2.2.2
    · exact (hp l (by simp)).2.2
    · exact (hp l (by simp)).2.2
    · exact (hp l (by simp)).2.2
  have hsplit : pySplitLines (pyJoin (xs0 ++ p1 :: (xs1 ++ p2 :: (xs2 ++ p3 :: xs3)))) =
      xs0 ++ p1 :: (xs1 ++ p2 :: (xs2 ++ p3 :: xs3)) := by
    apply pySplitLines_pyJoin _ (by simp) h10
  have hpm : ∀ l ∈ xs0 ++ p1 :: (xs1 ++ p2 :: (xs2 ++ p3 :: xs3)),
      pageMarkerHit l = false := by
    intro l hl
    rcases hmemdisp l hl with h | rfl | rfl | rfl
    · exact (hx l h).1
    · exact (hp l (by simp)).1
    · exact (hp l (by simp)).1
    · exact (hp l (by simp)).1
  have hhash : ∀ l ∈ xs0 ++ p1 :: (xs1 ++ p2 :: (xs2 ++ p3 :: xs3)),
      isImageLine l = false → (S "# ").isPrefixOf l = false := by
    intro l hl him
    rcases hmemdisp l hl with h | rfl | rfl | rfl
    · exact isPrefixOf_trans_false (by decide) (hx l h).2.2.1
    · exact absurd (hp l (by simp)).2.1 (by simp [him])
    · exact absurd (hp l (by simp)).2.1 (by simp [him])
    · exact absurd (hp l (by simp)).2.1 (by simp [him])
  obtain ⟨idxq, hloop⟩ :=
    cleanLoop_eq_cleanMap (xs0 ++ p1 :: (xs1 ++ p2 :: (xs2 ++ p3 :: xs3)))
      filename [u1, u2] false 0 hpm hhash
  have hx0img : ∀ x ∈ xs0, isImageLine x = false := fun x h0 => (hx x (hin0 x h0)).2.1
  have hx1img : ∀ x ∈ xs1, isImageLine x = false := fun x h0 => (hx x (hin1 x h0)).2.1
  have hx2img : ∀ x ∈ xs2, isImageLine x = false := fun x h0 => (hx x (hin2 x h0)).2.1
  have hx3img : ∀ x ∈ xs3, isImageLine x = false := fun x h0 => (hx x (hin3 x h0)).2.1
  have hcm : cleanMap [u1, u2] 0 (xs0 ++ p1 :: (xs1 ++ p2 :: (xs2 ++ p3 :: xs3))) =
      xs0 ++ figureLine 0 u1 :: (xs1 ++ figureLine 1 u2 ::
        (xs2 ++ imageNotice :: xs3)) := by
    rw [cleanMap_append_no_image _ xs0 _ 0 hx0img]
    rw [cleanMap_cons_image _ _ _ _ (hp p1 (by simp)).2.1]
    rw [if_pos (by simp)]
    rw [cleanMap_append_no_image _ xs1 _ 1 hx1img]
    rw [cleanMap_cons_image _ _ _ _ (hp p2 (by simp)).2.1]
    rw [if_pos (by simp)]
    rw [cleanMap_append_no_image _ xs2 _ 2 hx2img]
    rw [cleanMap_cons_image _ _ _ _ (hp p3 (by simp)).2.1]
    rw [if_neg (by simp)]
    rw [cleanMap_id_of_no_image _ xs3 2 hx3img]
    rfl
  rw [hcm] at hloop
  have hloop2 : cleanLoop filename [u1, u2]
      (pySplitLines (pyJoin (xs0 ++ p1 :: (xs1 ++ p2 :: (xs2 ++ p3 :: xs3))))) false 0 =
      .ok (xs0 ++ figureLine 0 u1 :: (xs1 ++ figureLine 1 u2 ::
        (xs2 ++ imageNotice :: xs3)), false, idxq) := by
    rw [hsplit]
    exact hloop
  rw [clean_markdown_of_loop_ok hloop2]
  simp only [Bool.false_eq_true, if_false]
  have hnohh : ∀ l ∈ xs0 ++ figureLine 0 u1 :: (xs1 ++ figureLine 1 u2 ::
      (xs2 ++ imageNotice :: xs3)), (S "## ").isPrefixOf l = false := by
    intro l hl
    have hl2 : l ∈ xs0 ++ xs1 ++ xs2 ++ xs3 ∨ l = figureLine 0 u1 ∨
        l = figureLine 1 u2 ∨ l = imageNotice := by
      simp only [List.mem_append, List.mem_cons] at hl ⊢
      tauto
    rcases hl2 with h | rfl | rfl | rfl
    · exact isPrefixOf_trans_false (by decide) (hx l h).2.2.1
    · exact hh_isPrefixOf_figureLine _ _
    · exact hh_isPrefixOf_figureLine _ _
    · exact hh_isPrefixOf_imageNotice
  unfold promoteTitle
  rw [eraseFirstHH_eq_none _ hnohh]

theorem C5_image_binding_order_witness :
    ((∀ x ∈ [S "text"] ++ [] ++ [S "more"] ++ [],
        pageMarkerHit x = false ∧ isImageLine x = false ∧
          (S "#").isPrefixOf x = false ∧ (10 : Nat) ∉ x) ∧
      (∀ q ∈ [S "![](_page_1.png)", S "[Image #2]", S "![](_page_3.png)"],
        pageMarkerHit q = false ∧ isImageLine q = true ∧ (10 : Nat) ∉ q)) ∧
    clean_markdown
        (pyJoin ([S "text"] ++ S "![](_page_1.png)" :: ([] ++ S "[Image #2]" ::
          ([S "more"] ++ S "![](_page_3.png)" :: []))))
        (S "a.pdf") [S "/u1", S "/u2"] =
      .ok (pyJoin ((S "# " ++ fnameTitle (S "a.pdf") ++ [10]) ::
        ([S "text"] ++ figureLine 0 (S "/u1") :: ([] ++ figureLine 1 (S "/u2") ::
          ([S "more"] ++ imageNotice :: []))))) :=
  ⟨⟨by decide, by decide⟩,
    C5_image_binding_order [S "text"] [] [S "more"] []
      (S "![](_page_1.png)") (S "[Image #2]") (S "![](_page_3.png)")
      (S "/u1") (S "/u2") (S "a.pdf") (by decide) (by decide)⟩

/-! ## Claim C6: promotion of the first second-level heading -/

theorem ne_figureLine_of_hh {x : PyStr} (h : (S "## ").isPrefixOf x = true)
    (idx : Nat) (url : PyStr) : x ≠ figureLine idx url := by
  intro he
  rw [he] at h
  rw [hh_isPrefixOf_figureLine] at h
  exact absurd h (by simp)

theorem ne_imageNotice_of_hh {x : PyStr} (h : (S "## ").isPrefixOf x = true) :
    x ≠ imageNotice := by
  intro he
  rw [he] at h
  rw [hh_isPrefixOf_imageNotice] at h
  exact absurd h (by simp)

theorem hh_ne_hash_append {x y : PyStr} (h : (S "## ").isPrefixOf x = true) :
    x ≠ S "# " ++ y := by
  intro he
  have hx := eq_append_drop_of_isPrefixOf h
  rw [he] at hx
  have h2 : (35 : Nat) :: 32 :: y = 35 :: 35 :: 32 :: ((S "# " ++ y).drop 3) := hx
  injection h2 with _ h3
  injection h3 with h4 _
  exact absurd h4 (by decide)

theorem cleanMap_count_eq (u : List PyStr) (x : PyStr)
    (hx : isImageLine x = false) (hhx : (S "## ").isPrefixOf x = true) :
    ∀ (ls : List PyStr) (idx : Nat), (cleanMap u idx ls).count x = ls.count x := by
  intro ls
  induction ls with
  | nil => intro idx; rfl
  | cons l t ih =>
    intro idx
    by_cases him : isImageLine l = true
    · have hlx : x ≠ l := by
        intro he
        rw [← he] at him
        rw [him] at hx
        exact absurd hx (by simp)
      rw [cleanMap_cons_image u t idx l him]
      by_cases hlt : idx < u.length
      · rw [if_pos hlt]
        rw [List.count_cons_of_ne (ne_figureLine_of_hh hhx idx _), ih,
          List.count_cons_of_ne hlx]
      · rw [if_neg hlt]
        rw [List.count_cons_of_ne (ne_imageNotice_of_hh hhx), ih,
          List.count_cons_of_ne hlx]
    · simp only [cleanMap]
      rw [if_neg him]
      by_cases hlx : x = l
      · subst hlx
        rw [List.count_cons_self, List.count_cons_self, ih]
      · rw [List.count_cons_of_ne hlx, List.count_cons_of_ne hlx, ih]

theorem promote_cleanMap (u : List PyStr) :
    ∀ (ls : List PyStr) (idx : Nat) (x : PyStr),
      ls.find? (fun l => (S "## ").isPrefixOf l) = some x →
      isImageLine x = false →
      ∃ restp, eraseFirstHH (cleanMap u idx ls) = some (x, restp) ∧
        restp.count x + 1 = ls.count x ∧
        ((∀ l ∈ ls, (10 : Nat) ∉ l) → (∀ v ∈ u, (10 : Nat) ∉ v) →
          ∀ y ∈ restp, (10 : Nat) ∉ y) := by
  intro ls
  induction ls with
  | nil =>
    intro idx x hf _
    simp at hf
  | cons l t ih =>
    intro idx x hf hx
    have hhx : (S "## ").isPrefixOf x = true := List.find?_some hf
    by_cases hl : ((S "## ").isPrefixOf l : Bool) = true
    · have hfx : x = l := by
        rw [List.find?_cons_of_pos t hl] at hf
        injection hf with h
        exact h.symm
      subst hfx
      have himl : isImageLine x = false := hx
      simp only [cleanMap]
      rw [if_neg (by simp [himl])]
      refine ⟨cleanMap u idx t, ?_, ?_, ?_⟩
      · simp only [eraseFirstHH]
        rw [if_pos hl]
      · rw [cleanMap_count_eq u x himl hl t idx, List.count_cons_self]
      · intro hls hu y hy
        exact cleanMap_not_mem_nl u hu t idx
          (fun a ha => hls a (List.mem_cons_of_mem _ ha)) y hy
    · have hf' : t.find? (fun l2 => (S "## ").isPrefixOf l2) = some x := by
        rw [List.find?_cons_of_neg t hl] at hf
        exact hf
      have hxl : x ≠ l := by
        intro he
        rw [he] at hhx
        exact hl hhx
      by_cases him : isImageLine l = true
      · rw [cleanMap_cons_image u t idx l him]
        by_cases hlt : idx < u.length
        · rw [if_pos hlt]
          obtain ⟨restp, hh1, hh2, hh3⟩ := ih (idx + 1) x hf' hx
          refine ⟨figureLine idx (u.getD idx []) :: restp, ?_, ?_, ?_⟩
          · simp only [eraseFirstHH]
            rw [if_neg (by simp [hh_isPrefixOf_figureLine])]
            rw [hh1]
          · rw [List.count_cons_of_ne (ne_figureLine_of_hh hhx idx _), hh2,
              List.count_cons_of_ne hxl]
          · intro hls hu y hy
            rcases List.mem_cons.mp hy with rfl | hy2
            · exact not_mem_nl_figureLine idx _ (not_mem_nl_getD hu idx)
            · exact hh3 (fun a ha => hls a (List.mem_cons_of_mem _ ha)) hu y hy2
        · rw [if_neg hlt]
          obtain ⟨restp, hh1, hh2, hh3⟩ := ih idx x hf' hx
          refine ⟨imageNotice :: restp, ?_, ?_, ?_⟩
          · simp only [eraseFirstHH]
            rw [if_neg (by simp [hh_isPrefixOf_imageNotice])]
            rw [hh1]
          · rw [List.count_cons_of_ne (ne_imageNotice_of_hh hhx), hh2,
              List.count_cons_of_ne hxl]
          · intro hls hu y hy
            rcases List.mem_cons.mp hy with rfl | hy2
            · decide
            · exact hh3 (fun a ha => hls a (List.mem_cons_of_mem _ ha)) hu y hy2
      · simp only [cleanMap]
        rw [if_neg him]
        obtain ⟨restp, hh1, hh2, hh3⟩ := ih idx x hf' hx
        refine ⟨l :: restp, ?_, ?_, ?_⟩
        · simp only [eraseFirstHH]
          rw [if_neg hl]
          rw [hh1]
        · rw [List.count_cons_of_ne hxl, hh2, List.count_cons_of_ne hxl]
        · intro hls hu y hy
          rcases List.mem_cons.mp hy with rfl | hy2
          · exact hls y (List.mem_cons_self _ _)
          · exact hh3 (fun a ha => hls a (List.mem_cons_of_mem _ ha)) hu y hy2

/-- C6, counterexample: the input `"## x [Image #1]"` has no top-level
heading and its first (and only) second-level heading contains the
broken-image token `[Image #`, so the cleaning loop consumes that line
as an image placeholder before the title logic sees it.  The output is
built from the filename instead of beginning with
`"# x [Image #1]"` as the claim requires. -/
theorem C6_counterexample :
    (∀ l ∈ pySplitLines (S "## x [Image #1]"), (S "# ").isPrefixOf l = false) ∧
    (pySplitLines (S "## x [Image #1]")).find? (fun l => (S "## ").isPrefixOf l) =
      some (S "## x [Image #1]") ∧
    clean_markdown (S "## x [Image #1]") (S "f.pdf") [] =
      .ok (S "# F\n\n*[Figure/Image available in original PDF]*") ∧
    (S "# x [Image #1]").isPrefixOf
      (S "# F\n\n*[Figure/Image available in original PDF]*") = false :=
  ⟨by decide, by decide, rfl, by decide⟩

/-- C6, amended: for every input markdown with no line starting with
`'# '` whose first line starting with `'## '` is `lstar`, provided
`lstar` is not itself a broken image placeholder and the image URLs
are newline-free, if `clean_markdown` returns a result then that
result begins with the new top-level heading built from `lstar`'s
text (its first line is `'# '` followed by `lstar` minus its `'## '`
marker), and one occurrence of `lstar` — the promoted one — has been
removed: the output contains exactly one fewer line equal to `lstar`
than the input. -/
theorem C6_amended_promote_first_heading
    (content filename : PyStr) (urls : List PyStr) (r lstar : PyStr)
    (h1 : ∀ l ∈ pySplitLines content, (S "# ").isPrefixOf l = false)
    (h2 : (pySplitLines content).find? (fun l => (S "## ").isPrefixOf l) = some lstar)
    (h3 : isImageLine lstar = false)
    (hu : ∀ v ∈ urls, (10 : Nat) ∉ v)
    (hok : clean_markdown content filename urls = .ok r) :
    (pySplitLines r).head? = some (S "# " ++ lstar.drop 3) ∧
    (pySplitLines r).count lstar + 1 = (pySplitLines content).count lstar := by
  have hhl : (S "## ").isPrefixOf lstar = true := List.find?_some h2
  unfold clean_markdown at hok
  cases hres : cleanLoop filename urls (pySplitLines content) false 0 with
  | error e =>
    rw [hres] at hok
    exact absurd hok (by simp)
  | ok res =>
    rw [hres] at hok
    obtain ⟨cleaned, ts, idxf⟩ := res
    have hpm : ∀ l ∈ pySplitLines content, pageMarkerHit l = false :=
      cleanLoop_ok_no_pageMarker _ filename urls false 0 _ hres
    obtain ⟨idx2, hloop⟩ := cleanLoop_eq_cleanMap (pySplitLines content) filename urls
      false 0 hpm (fun l hl _ => h1 l hl)
    rw [hres] at hloop
    injection hloop with htrip
    rw [Prod.mk.injEq, Prod.mk.injEq] at htrip
    obtain ⟨hcl, hts, _⟩ := htrip
    subst hcl
    subst hts
    obtain ⟨restp, hp1, hp2, hp3⟩ := promote_cleanMap urls (pySplitLines content) 0 lstar h2 h3
    have hr : r = pyJoin ((S "# " ++ lstar.drop 3) :: restp) := by
      injection hok with h'
      rw [← h']
      simp only [Bool.false_eq_true, if_false]
      unfold promoteTitle
      rw [hp1]
    have hlsnl : ∀ l ∈ pySplitLines content, (10 : Nat) ∉ l :=
      not_mem_nl_pySplitLines content
    have hrestnl : ∀ y ∈ restp, (10 : Nat) ∉ y := hp3 hlsnl hu
    have hlstar_mem : lstar ∈ pySplitLines content := List.mem_of_find?_eq_some h2
    have hheadnl : (10 : Nat) ∉ S "# " ++ lstar.drop 3 := by
      intro hm
      rcases List.mem_append.mp hm with hm1 | hm1
      · revert hm1
        decide
      · exact hlsnl lstar hlstar_mem ((List.drop_sublist _ _).subset hm1)
    have hallnl : ∀ l ∈ (S "# " ++ lstar.drop 3) :: restp, (10 : Nat) ∉ l := by
      intro l hl
      rcases List.mem_cons.mp hl with rfl | hl2
      · exact hheadnl
      · exact hrestnl l hl2
    subst hr
    rw [pySplitLines_pyJoin _ (by simp) hallnl]
    refine ⟨rfl, ?_⟩
    rw [List.count_cons_of_ne (hh_ne_hash_append hhl), hp2]

theorem C6_amended_promote_first_heading_witness :
    ((∀ l ∈ pySplitLines (S "intro\n## Results Overview\nmore"),
        (S "# ").isPrefixOf l = false) ∧
      (pySplitLines (S "intro\n## Results Overview\nmore")).find?
          (fun l => (S "## ").isPrefixOf l) = some (S "## Results Overview") ∧
      isImageLine (S "## Results Overview") = false ∧
      clean_markdown (S "intro\n## Results Overview\nmore") (S "a.pdf") [] =
        .ok (S "# Results Overview\nintro\nmore")) ∧
    (pySplitLines (S "# Results Overview\nintro\nmore")).head? =
        some (S "# " ++ (S "## Results Overview").drop 3) ∧
    (pySplitLines (S "# Results Overview\nintro\nmore")).count
        (S "## Results Overview") + 1 =
      (pySplitLines (S "intro\n## Results Overview\nmore")).count
        (S "## Results Overview") :=
  ⟨⟨by decide, by decide, by decide, rfl⟩,
    C6_amended_promote_first_heading (S "intro\n## Results Overview\nmore") (S "a.pdf") []
      (S "# Results Overview\nintro\nmore") (S "## Results Overview")
      (by decide) (by decide) (by decide) (by simp) rfl⟩
